import Mathlib

/-!
Shallow embedding of the Chaos-Projectile core: the particle system in
`src/chaosparticle.py` (vector math, `Particle`, `Emitter`) and the event bus
in `src/events.py` (`EventManager`).  Python numbers are modelled as exact
reals (for vector components and angles) and integers (for counters);
fallible Python operations are modelled with `Except`/product-with-error
results, where `PyError` names the runtime exception class that the Python
interpreter would raise.
-/

open Real

/-- Runtime exceptions raised by the embedded Python code:
`typeError` for unpacking `None` (`nX, nY = get_normalized(vector)` when the
result is `None`), `attributeError` for calling a method that the object does
not have (`particle.move()` — class `Particle` defines no `move`),
`runtimeError` for mutating a dict while iterating over it. -/
inductive PyError where
  | typeError
  | attributeError
  | runtimeError
deriving DecidableEq

/-- A 2d vector, `[x, y]` list in the source. -/
structure Vec where
  x : ℝ
  y : ℝ

/-- Componentwise vector addition: `np.array(u) + np.array(v)`. -/
instance : Add Vec where
  add u v := ⟨u.x + v.x, u.y + v.y⟩

theorem Vec.add_def (u v : Vec) : u + v = ⟨u.x + v.x, u.y + v.y⟩ := rfl

/-- `np.linalg.norm(vector)` for a 2d vector: the Euclidean norm. -/
noncomputable def vnorm (v : Vec) : ℝ :=
  Real.sqrt (v.x ^ 2 + v.y ^ 2)

open Classical in
/-- `get_normalized(vector)`: returns the normalized vector, or `None`
(here `none`) if the vector is `(0, 0)`.
Source: `result = None; if not (vector[0] == 0 and vector[1] == 0):
n = np.linalg.norm(vector); result = [vector[0]/n, vector[1]/n]`. -/
noncomputable def get_normalized (v : Vec) : Option Vec :=
  if v.x = 0 ∧ v.y = 0 then
    none
  else
    some ⟨v.x / vnorm v, v.y / vnorm v⟩

/-- `get_rotated_vector(vector, angle)`.  The source computes
`length = np.linalg.norm(vector)`, then unpacks
`nX, nY = get_normalized(vector)` — which raises `TypeError` when
`get_normalized` returned `None` — and returns
`(nX*cos_a - nY*sin_a, nX*sin_a + nY*cos_a)` rescaled by `length`.
`math.sin`/`math.cos` interpret their argument in radians, so `angle` is
used here exactly as the source does: fed to `sin`/`cos` unconverted. -/
noncomputable def get_rotated_vector (v : Vec) (angle : ℝ) : Except PyError Vec :=
  let length := vnorm v
  match get_normalized v with
  | none => .error .typeError
  | some n =>
    let sin_a := Real.sin angle
    let cos_a := Real.cos angle
    let result : Vec := ⟨n.x * cos_a - n.y * sin_a, n.x * sin_a + n.y * cos_a⟩
    .ok ⟨result.x * length, result.y * length⟩

/-- One particle: `life`, `position`, `velocity`, `acceleration`.
The Python class `Particle` defines only `__init__`; in particular it has
no `move` method. -/
structure Particle where
  life : ℤ
  position : Vec
  velocity : Vec
  acceleration : Vec

/-- Particle emitter state: `particles`, `life`, `position`. -/
structure Emitter where
  particles : List Particle
  life : ℤ
  position : Vec

/-- Python `range(n)` over an `int` argument: empty for `n <= 0`. -/
def pythonRange (n : ℤ) : List ℤ :=
  (List.range n.toNat).map Int.ofNat

/-- The per-particle angle of `Emitter.__init__`:
`angle = 30*p; angle = angle - ((30*(amount-1)) / 2)` (Python 3 true
division, exact on reals). -/
noncomputable def emitterAngle (amount p : ℤ) : ℝ :=
  30 * (p : ℝ) - (30 * ((amount : ℝ) - 1)) / 2

/-- The `for p in range(amount)` loop body of `Emitter.__init__`: for each
index `p`, rotate `velocity` by the fan angle (`get_rotated_vector`, which
raises `TypeError` on a zero vector) and append
`Particle(life, position, vel, acceleration)`; an exception aborts the loop
and propagates. -/
noncomputable def spawnLoop (velocity position acceleration : Vec)
    (amount life : ℤ) : List ℤ → Except PyError (List Particle)
  | [] => .ok []
  | p :: rest =>
    match get_rotated_vector velocity (emitterAngle amount p) with
    | .error err => .error err
    | .ok vel =>
      match spawnLoop velocity position acceleration amount life rest with
      | .error err => .error err
      | .ok ps => .ok (Particle.mk life position vel acceleration :: ps)

/-- `Emitter.__init__(position, amount, life, velocity, acceleration)`:
sets `particles = []`, `life`, `position`, then runs the spawn loop over
`range(amount)`. -/
noncomputable def emitterInit (position : Vec) (amount life : ℤ)
    (velocity acceleration : Vec) : Except PyError Emitter :=
  match spawnLoop velocity position acceleration amount life (pythonRange amount) with
  | .error err => .error err
  | .ok particles => .ok ⟨particles, life, position⟩

/-- `Emitter.update()`: `self.life = self.life - 1`, then for every particle
`particle.move(); particle.life = particle.life - 1`.  Class `Particle` has
no attribute `move`, so the first loop iteration raises `AttributeError`
before touching the particle; the emitter-level `life` decrement has already
happened.  The result is the state after the mutations that did run, paired
with the exception, if any. -/
def Emitter.update (e : Emitter) : Emitter × Option PyError :=
  let e1 : Emitter := { e with life := e.life - 1 }
  match e1.particles with
  | [] => (e1, none)
  | _ :: _ => (e1, some .attributeError)

/-- `Emitter.update_velocity()`: for every particle,
`particle.velocity = np.array(particle.velocity) + np.array(particle.acceleration)`. -/
def Emitter.update_velocity (e : Emitter) : Emitter :=
  { e with particles :=
      e.particles.map (fun p => { p with velocity := p.velocity + p.acceleration }) }

/-- `Emitter.update_position()`: for every particle,
`particle.position = np.array(particle.position) + np.array(particle.velocity)`. -/
def Emitter.update_position (e : Emitter) : Emitter :=
  { e with particles :=
      e.particles.map (fun p => { p with position := p.position + p.velocity }) }

/-- `Emitter.update_life()`: for every particle,
`particle.life = particle.life - 1`. -/
def Emitter.update_life (e : Emitter) : Emitter :=
  { e with particles :=
      e.particles.map (fun p => { p with life := p.life - 1 }) }

/-! Event bus of `src/events.py`. -/

/-- The concrete event classes of `events.py`, as a closed sum.  `generic`
is the bare `Event` superclass; each variant carries the fields its
`__init__` stores (the `name` string is determined by the variant and
omitted). -/
inductive Event where
  | generic
  | tick (dt : ℤ)
  | resizeWindow (width height : ℤ)
  | quit
  | keyPressed (key : ℤ)
  | keyReleased (key : ℤ)
  | mouseButtonDown
  | mouseMoved (x y : ℤ)
  | axisMoved (x_axis y_axis : ℝ)
  | hatMoved (x y : ℤ)
  | updateImagePosition (entity_ID : ℤ) (new_position : ℤ × ℤ)
  | playerMoved (new_position : Vec)
  | playerStoppedMovement

/-- Listener identity.  Listeners are arbitrary Python objects compared by
identity; naturals stand in for object identities. -/
abbrev Listener := ℕ

/-- The `EventManager.listeners` WeakKeyDictionary, as its key list in
insertion order (Python dicts preserve insertion order; all values are `1`). -/
abbrev EMState := List Listener

/-- `EventManager.register_listener(listener)`:
`self.listeners[listener] = 1`.  Assigning to a key already present leaves
the key set and its order unchanged; a new key is appended. -/
def register_listener (l : Listener) (st : EMState) : EMState :=
  if l ∈ st then st else st ++ [l]

/-- `EventManager.unregister_listener(listener)`:
`if listener in self.listeners: del self.listeners[listener]`. -/
def unregister_listener (l : Listener) (st : EMState) : EMState :=
  if l ∈ st then st.erase l else st

/-- The effect of one listener's `notify(event)` on the registration set:
listeners are arbitrary objects whose `notify` may call
`register_listener`/`unregister_listener` on the manager, so `post` is
verified relative to an arbitrary such effect map. -/
def NotifyBehavior : Type :=
  Listener → Event → EMState → EMState

/-- Result of `EventManager.post`: the listeners notified, in order, and the
final registration set; `runtimeError` when the `for listener in
self.listeners` iteration raises `RuntimeError` because a `notify` changed
the dictionary's size mid-iteration (CPython's dict iterator compares the
dict's current size with its size at iterator creation on every step). -/
inductive PostResult where
  | ok (delivered : List Listener) (st : EMState)
  | runtimeError (delivered : List Listener) (st : EMState)
deriving DecidableEq

/-- One `for` loop over the dictionary: `remaining` counts the key slots
left to visit, `pos` is the iterator's position, `size0` the size recorded
at iterator creation.  Each step first re-checks the size (raising
`RuntimeError` on mismatch, before any entry is read — so the `getD`
default is never consulted), then yields the key at `pos` and runs its
`notify`. -/
def postLoop (behavior : NotifyBehavior) (event : Event) (size0 : ℕ) :
    ℕ → ℕ → EMState → List Listener → PostResult
  | 0, _, st, delivered =>
    if st.length ≠ size0 then .runtimeError delivered.reverse st
    else .ok delivered.reverse st
  | remaining + 1, pos, st, delivered =>
    if st.length ≠ size0 then .runtimeError delivered.reverse st
    else
      let l := st.getD pos 0
      postLoop behavior event size0 remaining (pos + 1) (behavior l event st) (l :: delivered)

/-- `EventManager.post(event)`: `for listener in self.listeners:
listener.notify(event)`. -/
def post (behavior : NotifyBehavior) (event : Event) (st : EMState) : PostResult :=
  postLoop behavior event st.length st.length 0 st []

/-- Modelled from the spec: the fan-out rule's rotation by an angle stated
in degrees, the degree offset converted to radians
(`offset_in_radians = deg * π / 180`) before the standard rotation matrix
is applied.  This is the spec's intended semantics, used for comparison
with `get_rotated_vector`, which feeds its angle to `sin`/`cos`
unconverted. -/
noncomputable def specRotateByDegrees (v : Vec) (deg : ℝ) : Vec :=
  ⟨v.x * Real.cos (deg * π / 180) - v.y * Real.sin (deg * π / 180),
   v.x * Real.sin (deg * π / 180) + v.y * Real.cos (deg * π / 180)⟩

/-! Helper lemmas. -/

theorem vnorm_pos (v : Vec) (hv : ¬(v.x = 0 ∧ v.y = 0)) : 0 < vnorm v := by
  have hsum : 0 < v.x ^ 2 + v.y ^ 2 := by
    rcases not_and_or.mp hv with h | h
    · have := sq_pos_of_ne_zero h
      nlinarith [sq_nonneg v.y]
    · have := sq_pos_of_ne_zero h
      nlinarith [sq_nonneg v.x]
  exact Real.sqrt_pos.mpr hsum

theorem vnorm_sq (v : Vec) : vnorm v ^ 2 = v.x ^ 2 + v.y ^ 2 :=
  Real.sq_sqrt (by positivity)

theorem get_normalized_of_ne (v : Vec) (hv : ¬(v.x = 0 ∧ v.y = 0)) :
    get_normalized v = some ⟨v.x / vnorm v, v.y / vnorm v⟩ := by
  simp only [get_normalized, hv, if_false]

theorem get_normalized_unit (v : Vec) (hv : ¬(v.x = 0 ∧ v.y = 0)) :
    vnorm ⟨v.x / vnorm v, v.y / vnorm v⟩ = 1 := by
  have hpos := vnorm_pos v hv
  have hne : vnorm v ≠ 0 := ne_of_gt hpos
  have hsum : (v.x / vnorm v) ^ 2 + (v.y / vnorm v) ^ 2 = 1 := by
    have h2 := vnorm_sq v
    field_simp
    linarith
  show Real.sqrt ((v.x / vnorm v) ^ 2 + (v.y / vnorm v) ^ 2) = 1
  rw [hsum, Real.sqrt_one]

/-- C5: `get_normalized` maps the zero vector to `None` and every nonzero
vector to a unit-length positive scalar multiple `v / |v|` of itself. -/
theorem get_normalized_correct :
    get_normalized ⟨0, 0⟩ = none ∧
    ∀ v : Vec, ¬(v.x = 0 ∧ v.y = 0) →
      ∃ w, get_normalized v = some w ∧ vnorm w = 1 ∧
        ∃ c : ℝ, 0 < c ∧ w.x = c * v.x ∧ w.y = c * v.y := by
  constructor
  · simp [get_normalized]
  · intro v hv
    refine ⟨⟨v.x / vnorm v, v.y / vnorm v⟩, get_normalized_of_ne v hv,
      get_normalized_unit v hv, (vnorm v)⁻¹, ?_, ?_, ?_⟩
    · exact inv_pos.mpr (vnorm_pos v hv)
    · show v.x / vnorm v = (vnorm v)⁻¹ * v.x
      rw [div_eq_inv_mul]
    · show v.y / vnorm v = (vnorm v)⁻¹ * v.y
      rw [div_eq_inv_mul]

/-- Witness for C5 at the concrete nonzero vector `(3, 4)`. -/
theorem get_normalized_correct_witness :
    ∃ w, get_normalized ⟨3, 4⟩ = some w ∧ vnorm w = 1 ∧
      ∃ c : ℝ, 0 < c ∧ w.x = c * 3 ∧ w.y = c * 4 :=
  get_normalized_correct.2 ⟨3, 4⟩ (by norm_num)

/-- C4: for every nonzero vector and every angle, `get_rotated_vector`
succeeds and returns a vector of exactly the same Euclidean norm. -/
theorem get_rotated_vector_preserves_norm (v : Vec)
    (hv : ¬(v.x = 0 ∧ v.y = 0)) (θ : ℝ) :
    ∃ w, get_rotated_vector v θ = .ok w ∧ vnorm w = vnorm v := by
  have hpos := vnorm_pos v hv
  have hne : vnorm v ≠ 0 := ne_of_gt hpos
  refine ⟨⟨(v.x / vnorm v * Real.cos θ - v.y / vnorm v * Real.sin θ) * vnorm v,
           (v.x / vnorm v * Real.sin θ + v.y / vnorm v * Real.cos θ) * vnorm v⟩, ?_, ?_⟩
  · simp only [get_rotated_vector, get_normalized_of_ne v hv]
  · have h1 : (v.x / vnorm v * Real.cos θ - v.y / vnorm v * Real.sin θ) * vnorm v =
        v.x * Real.cos θ - v.y * Real.sin θ := by
      field_simp
    have h2 : (v.x / vnorm v * Real.sin θ + v.y / vnorm v * Real.cos θ) * vnorm v =
        v.x * Real.sin θ + v.y * Real.cos θ := by
      field_simp
    have hpyth := Real.sin_sq_add_cos_sq θ
    show Real.sqrt _ = Real.sqrt _
    rw [h1, h2]
    congr 1
    linear_combination (v.x ^ 2 + v.y ^ 2) * hpyth

/-- Witness for C4 at the concrete nonzero vector `(0, 1)` and angle `0`. -/
theorem get_rotated_vector_preserves_norm_witness :
    ∃ w, get_rotated_vector ⟨0, 1⟩ 0 = .ok w ∧ vnorm w = vnorm ⟨0, 1⟩ :=
  get_rotated_vector_preserves_norm ⟨0, 1⟩ (by norm_num) 0

/-- C8: `update_velocity()` followed by `update_position()` on an emitter
whose particles all have velocity `(1,0)` and acceleration `(0,1)` gives
every particle velocity `(1,1)` and shifts its position by `(1,1)`. -/
theorem update_velocity_then_position (e : Emitter)
    (h : ∀ p ∈ e.particles, p.velocity = ⟨1, 0⟩ ∧ p.acceleration = ⟨0, 1⟩) :
    (e.update_velocity.update_position).particles =
      e.particles.map (fun p =>
        { p with velocity := ⟨1, 1⟩, position := p.position + ⟨1, 1⟩ }) := by
  simp only [Emitter.update_velocity, Emitter.update_position, List.map_map]
  refine List.map_congr_left ?_
  intro p hp
  obtain ⟨hva, hac⟩ := h p hp
  simp only [Function.comp, hva, hac, Vec.add_def]
  norm_num

/-- Witness for C8 on a one-particle emitter. -/
theorem update_velocity_then_position_witness :
    ((Emitter.mk [⟨5, ⟨2, 3⟩, ⟨1, 0⟩, ⟨0, 1⟩⟩] 9 ⟨0, 0⟩).update_velocity.update_position).particles =
      [(⟨5, ⟨2, 3⟩, ⟨1, 0⟩, ⟨0, 1⟩⟩ : Particle)].map (fun p =>
        { p with velocity := ⟨1, 1⟩, position := p.position + ⟨1, 1⟩ }) :=
  update_velocity_then_position ⟨[⟨5, ⟨2, 3⟩, ⟨1, 0⟩, ⟨0, 1⟩⟩], 9, ⟨0, 0⟩⟩
    (by intro p hp; rw [List.mem_singleton] at hp; subst hp; exact ⟨rfl, rfl⟩)

/-- C10: `update_velocity`, `update_position` and `update_life` leave the
emitter-level `life` and `position` unchanged and each leaves every particle
field other than its named one unchanged; `update()` is the operation that
decrements the emitter-level `life`. -/
theorem partial_updates_frame (e : Emitter) :
    e.update_velocity.life = e.life ∧ e.update_velocity.position = e.position ∧
    e.update_velocity.particles.map Particle.life = e.particles.map Particle.life ∧
    e.update_velocity.particles.map Particle.position = e.particles.map Particle.position ∧
    e.update_velocity.particles.map Particle.acceleration = e.particles.map Particle.acceleration ∧
    e.update_position.life = e.life ∧ e.update_position.position = e.position ∧
    e.update_position.particles.map Particle.life = e.particles.map Particle.life ∧
    e.update_position.particles.map Particle.velocity = e.particles.map Particle.velocity ∧
    e.update_position.particles.map Particle.acceleration = e.particles.map Particle.acceleration ∧
    e.update_life.life = e.life ∧ e.update_life.position = e.position ∧
    e.update_life.particles.map Particle.position = e.particles.map Particle.position ∧
    e.update_life.particles.map Particle.velocity = e.particles.map Particle.velocity ∧
    e.update_life.particles.map Particle.acceleration = e.particles.map Particle.acceleration ∧
    (e.update).1.life = e.life - 1 := by
  obtain ⟨ps, l, pos⟩ := e
  refine ⟨rfl, rfl, ?_, ?_, ?_, rfl, rfl, ?_, ?_, ?_, rfl, rfl, ?_, ?_, ?_, ?_⟩ <;>
    first
      | (simp only [Emitter.update_velocity, Emitter.update_position,
          Emitter.update_life, List.map_map]; rfl)
      | (cases ps <;> rfl)

theorem spawnLoop_ok_length (velocity position acceleration : Vec)
    (amount life : ℤ) :
    ∀ (l : List ℤ) (ps : List Particle),
      spawnLoop velocity position acceleration amount life l = .ok ps →
      ps.length = l.length := by
  intro l
  induction l with
  | nil =>
    intro ps h
    simp only [spawnLoop] at h
    cases h
    rfl
  | cons p rest ih =>
    intro ps h
    simp only [spawnLoop] at h
    cases hg : get_rotated_vector velocity (emitterAngle amount p) with
    | error err => rw [hg] at h; cases h
    | ok vel =>
      rw [hg] at h
      cases hs : spawnLoop velocity position acceleration amount life rest with
      | error err => rw [hs] at h; cases h
      | ok tail =>
        rw [hs] at h
        cases h
        simp [ih tail hs]

/-- C9 counterexample: an Emitter constructed with `amount = -1` is
constructed successfully (no configuration check exists) and owns `0`
particles, not `-1`, so the particle count is not "exactly amount". -/
theorem emitter_particle_count_cex :
    emitterInit ⟨0, 0⟩ (-1) 10 ⟨0, 1⟩ ⟨0, 0⟩ = .ok ⟨[], 10, ⟨0, 0⟩⟩ ∧
      ((0 : ℤ) ≠ -1) :=
  ⟨rfl, by decide⟩

/-- C9 amended: construction yields `max(amount, 0)` particles — exactly
`amount` whenever `amount ≥ 0` — and all four update operations preserve
the particle count; no operation adds or removes a particle. -/
theorem emitter_particle_count (position : Vec) (amount life : ℤ)
    (velocity acceleration : Vec) :
    (∀ em, emitterInit position amount life velocity acceleration = .ok em →
      em.particles.length = amount.toNat) ∧
    ∀ e : Emitter,
      (e.update).1.particles.length = e.particles.length ∧
      e.update_velocity.particles.length = e.particles.length ∧
      e.update_position.particles.length = e.particles.length ∧
      e.update_life.particles.length = e.particles.length := by
  constructor
  · intro em h
    unfold emitterInit at h
    cases hs : spawnLoop velocity position acceleration amount life (pythonRange amount) with
    | error err => rw [hs] at h; cases h
    | ok ps =>
      rw [hs] at h
      cases h
      have := spawnLoop_ok_length velocity position acceleration amount life _ _ hs
      simpa [pythonRange] using this
  · intro e
    obtain ⟨ps, l, pos⟩ := e
    refine ⟨?_, by simp [Emitter.update_velocity], by simp [Emitter.update_position],
      by simp [Emitter.update_life]⟩
    cases ps <;> rfl

/-- Witness for C9 (amended) at the concrete construction with `amount = 0`. -/
theorem emitter_particle_count_witness :
    (Emitter.mk [] 10 ⟨0, 0⟩).particles.length = (0 : ℤ).toNat :=
  (emitter_particle_count ⟨0, 0⟩ 0 10 ⟨0, 1⟩ ⟨0, 0⟩).1 ⟨[], 10, ⟨0, 0⟩⟩ rfl

theorem grv_unit_y (θ : ℝ) :
    get_rotated_vector ⟨0, 1⟩ θ = .ok ⟨-Real.sin θ, Real.cos θ⟩ := by
  have h01 : ¬(((0 : ℝ) = 0) ∧ ((1 : ℝ) = 0)) := by norm_num
  have hn : vnorm ⟨0, 1⟩ = 1 := by
    show Real.sqrt ((0 : ℝ) ^ 2 + (1 : ℝ) ^ 2) = 1
    rw [show (0 : ℝ) ^ 2 + (1 : ℝ) ^ 2 = 1 by norm_num, Real.sqrt_one]
  simp only [get_rotated_vector, get_normalized_of_ne ⟨0, 1⟩ h01, hn]
  norm_num

/-- C2 (code bug): on the emitter built with `amount = 1` — one particle —
`update()` decrements the emitter `life` from 10 to 9 and then raises
`AttributeError`, because class `Particle` defines no `move` method; the
particle's position and life are never advanced. -/
theorem update_raises_attribute_error :
    ∃ em, emitterInit ⟨0, 0⟩ 1 10 ⟨0, 1⟩ ⟨0, 0⟩ = .ok em ∧
      em.update = ({ em with life := 9 }, some PyError.attributeError) ∧
      em.particles = [⟨10, ⟨0, 0⟩, ⟨-Real.sin 0, Real.cos 0⟩, ⟨0, 0⟩⟩] := by
  have hangle : emitterAngle 1 0 = 0 := by norm_num [emitterAngle]
  have hgrv : get_rotated_vector ⟨0, 1⟩ (emitterAngle 1 0) =
      .ok ⟨-Real.sin 0, Real.cos 0⟩ := by
    rw [hangle, grv_unit_y]
  refine ⟨⟨[⟨10, ⟨0, 0⟩, ⟨-Real.sin 0, Real.cos 0⟩, ⟨0, 0⟩⟩], 10, ⟨0, 0⟩⟩, ?_, ?_, rfl⟩
  · unfold emitterInit
    rw [show pythonRange 1 = [0] from rfl]
    simp only [spawnLoop, hgrv]
  · norm_num [Emitter.update]

theorem grv_zero (v : Vec) (hv : v.x = 0 ∧ v.y = 0) (θ : ℝ) :
    get_rotated_vector v θ = .error .typeError := by
  simp only [get_rotated_vector, get_normalized, hv, and_self, if_true]

theorem grv_ok (v : Vec) (hv : ¬(v.x = 0 ∧ v.y = 0)) (θ : ℝ) :
    ∃ w, get_rotated_vector v θ = .ok w := by
  refine ⟨⟨(v.x / vnorm v * Real.cos θ - v.y / vnorm v * Real.sin θ) * vnorm v,
           (v.x / vnorm v * Real.sin θ + v.y / vnorm v * Real.cos θ) * vnorm v⟩, ?_⟩
  simp only [get_rotated_vector, get_normalized_of_ne v hv]

theorem spawnLoop_ok_of_ne (velocity position acceleration : Vec)
    (amount life : ℤ) (hv : ¬(velocity.x = 0 ∧ velocity.y = 0)) :
    ∀ l : List ℤ, ∃ ps, spawnLoop velocity position acceleration amount life l = .ok ps := by
  intro l
  induction l with
  | nil => exact ⟨[], rfl⟩
  | cons p rest ih =>
    obtain ⟨w, hw⟩ := grv_ok velocity hv (emitterAngle amount p)
    obtain ⟨ps, hps⟩ := ih
    refine ⟨Particle.mk life position w acceleration :: ps, ?_⟩
    simp only [spawnLoop, hw, hps]

theorem pythonRange_of_nonpos {n : ℤ} (h : n ≤ 0) : pythonRange n = [] := by
  simp [pythonRange, Int.toNat_of_nonpos h]

theorem emitterInit_of_nonpos (position : Vec) {amount : ℤ} (life : ℤ)
    (velocity acceleration : Vec) (h : amount ≤ 0) :
    emitterInit position amount life velocity acceleration = .ok ⟨[], life, position⟩ := by
  unfold emitterInit
  rw [pythonRange_of_nonpos h]
  rfl

theorem emitterInit_ok_of_ne (position : Vec) (amount life : ℤ)
    (velocity acceleration : Vec) (hv : ¬(velocity.x = 0 ∧ velocity.y = 0)) :
    ∃ em, emitterInit position amount life velocity acceleration = .ok em := by
  obtain ⟨ps, hps⟩ := spawnLoop_ok_of_ne velocity position acceleration amount life hv
    (pythonRange amount)
  exact ⟨⟨ps, life, position⟩, by unfold emitterInit; rw [hps]⟩

theorem emitterInit_error_of_zero (position : Vec) {amount : ℤ} (life : ℤ)
    {velocity : Vec} (acceleration : Vec) (ha : 0 < amount)
    (hv : velocity.x = 0 ∧ velocity.y = 0) :
    emitterInit position amount life velocity acceleration = .error .typeError := by
  have hlen : 0 < (pythonRange amount).length := by
    simp only [pythonRange, List.length_map, List.length_range]
    omega
  cases hl : pythonRange amount with
  | nil => rw [hl] at hlen; simp at hlen
  | cons a rest =>
    unfold emitterInit
    rw [hl]
    simp only [spawnLoop, grv_zero velocity hv]

/-- C3 counterexample: with `amount = 0 ≤ 0` and a nonzero `base_velocity`
the claim demands an `InvalidConfiguration` failure, but construction
succeeds, returning an emitter with no particles; no `InvalidConfiguration`
check exists anywhere in the code. -/
theorem emitter_no_invalid_configuration_cex :
    emitterInit ⟨0, 0⟩ 0 10 ⟨0, 1⟩ ⟨0, 0⟩ = .ok ⟨[], 10, ⟨0, 0⟩⟩ := rfl

/-- C3 amended: Emitter construction fails — with an unhandled `TypeError`
raised by unpacking the `None` returned by `get_normalized`, not with any
`InvalidConfiguration` error — exactly when `base_velocity` is the zero
vector and `amount ≥ 1`; in every other case, including `amount ≤ 0`,
construction succeeds. -/
theorem emitter_construction_failure (position : Vec) (amount life : ℤ)
    (velocity acceleration : Vec) :
    (emitterInit position amount life velocity acceleration = .error .typeError ↔
      0 < amount ∧ velocity.x = 0 ∧ velocity.y = 0) ∧
    (¬(0 < amount ∧ velocity.x = 0 ∧ velocity.y = 0) →
      ∃ em, emitterInit position amount life velocity acceleration = .ok em) := by
  have hok : ¬(0 < amount ∧ velocity.x = 0 ∧ velocity.y = 0) →
      ∃ em, emitterInit position amount life velocity acceleration = .ok em := by
    intro hn
    by_cases ha : 0 < amount
    · have hv : ¬(velocity.x = 0 ∧ velocity.y = 0) := fun hv => hn ⟨ha, hv⟩
      exact emitterInit_ok_of_ne position amount life velocity acceleration hv
    · exact ⟨⟨[], life, position⟩,
        emitterInit_of_nonpos position life velocity acceleration (by omega)⟩
  refine ⟨⟨?_, ?_⟩, hok⟩
  · intro herr
    by_contra hn
    obtain ⟨em, hem⟩ := hok hn
    rw [hem] at herr
    cases herr
  · intro ⟨ha, hv⟩
    exact emitterInit_error_of_zero position life acceleration ha hv

/-- Witness for C3 (amended) at the concrete input `amount = 1`,
`base_velocity = (0, 1)`, where construction succeeds. -/
theorem emitter_construction_failure_witness :
    ∃ em, emitterInit ⟨0, 0⟩ 1 10 ⟨0, 1⟩ ⟨0, 0⟩ = .ok em :=
  (emitter_construction_failure ⟨0, 0⟩ 1 10 ⟨0, 1⟩ ⟨0, 0⟩).2 (by norm_num)

/-- C1 (code bug): the emitter built with `amount = 5`,
`base_velocity = (0,1)` computes the degree offsets -60, -30, 0, 30, 60 but
feeds them to `math.sin`/`math.cos` unconverted, so each particle's velocity
is `(0,1)` rotated by the offset in *radians*; the last particle's velocity
`(-sin 60, cos 60)` differs from the spec's rotation by 60 degrees, whose
y-component is `cos 60° = 1/2` while `cos` of 60 radians is nonpositive. -/
theorem emitter_fan_unit_mismatch :
    ∃ em, emitterInit ⟨0, 0⟩ 5 10 ⟨0, 1⟩ ⟨0, 0⟩ = .ok em ∧
      em.particles.map Particle.velocity =
        [⟨-Real.sin (-60), Real.cos (-60)⟩, ⟨-Real.sin (-30), Real.cos (-30)⟩,
         ⟨-Real.sin 0, Real.cos 0⟩, ⟨-Real.sin 30, Real.cos 30⟩,
         ⟨-Real.sin 60, Real.cos 60⟩] ∧
      Vec.mk (-Real.sin 60) (Real.cos 60) ≠ specRotateByDegrees ⟨0, 1⟩ 60 := by
  have h0 : get_rotated_vector ⟨0, 1⟩ (emitterAngle 5 0) =
      .ok ⟨-Real.sin (-60), Real.cos (-60)⟩ := by
    rw [show emitterAngle 5 0 = (-60 : ℝ) by norm_num [emitterAngle], grv_unit_y]
  have h1 : get_rotated_vector ⟨0, 1⟩ (emitterAngle 5 1) =
      .ok ⟨-Real.sin (-30), Real.cos (-30)⟩ := by
    rw [show emitterAngle 5 1 = (-30 : ℝ) by norm_num [emitterAngle], grv_unit_y]
  have h2 : get_rotated_vector ⟨0, 1⟩ (emitterAngle 5 2) =
      .ok ⟨-Real.sin 0, Real.cos 0⟩ := by
    rw [show emitterAngle 5 2 = (0 : ℝ) by norm_num [emitterAngle], grv_unit_y]
  have h3 : get_rotated_vector ⟨0, 1⟩ (emitterAngle 5 3) =
      .ok ⟨-Real.sin 30, Real.cos 30⟩ := by
    rw [show emitterAngle 5 3 = (30 : ℝ) by norm_num [emitterAngle], grv_unit_y]
  have h4 : get_rotated_vector ⟨0, 1⟩ (emitterAngle 5 4) =
      .ok ⟨-Real.sin 60, Real.cos 60⟩ := by
    rw [show emitterAngle 5 4 = (60 : ℝ) by norm_num [emitterAngle], grv_unit_y]
  refine ⟨⟨[⟨10, ⟨0, 0⟩, ⟨-Real.sin (-60), Real.cos (-60)⟩, ⟨0, 0⟩⟩,
            ⟨10, ⟨0, 0⟩, ⟨-Real.sin (-30), Real.cos (-30)⟩, ⟨0, 0⟩⟩,
            ⟨10, ⟨0, 0⟩, ⟨-Real.sin 0, Real.cos 0⟩, ⟨0, 0⟩⟩,
            ⟨10, ⟨0, 0⟩, ⟨-Real.sin 30, Real.cos 30⟩, ⟨0, 0⟩⟩,
            ⟨10, ⟨0, 0⟩, ⟨-Real.sin 60, Real.cos 60⟩, ⟨0, 0⟩⟩], 10, ⟨0, 0⟩⟩,
    ?_, by simp, ?_⟩
  · unfold emitterInit
    rw [show pythonRange 5 = [0, 1, 2, 3, 4] from rfl]
    simp only [spawnLoop, h0, h1, h2, h3, h4]
  · intro hcontra
    have hy := congrArg Vec.y hcontra
    have harg : (60 : ℝ) * π / 180 = π / 3 := by ring
    have hspec : (specRotateByDegrees ⟨0, 1⟩ 60).y = 1 / 2 := by
      show (0 : ℝ) * Real.sin ((60 : ℝ) * π / 180) + 1 * Real.cos ((60 : ℝ) * π / 180) = 1 / 2
      rw [harg, Real.cos_pi_div_three]
      ring
    have hper : Real.cos ((60 : ℝ) - (9 : ℤ) * (2 * π)) = Real.cos 60 :=
      Real.cos_sub_int_mul_two_pi 60 9
    have hle : Real.cos ((60 : ℝ) - (9 : ℤ) * (2 * π)) ≤ 0 := by
      apply Real.cos_nonpos_of_pi_div_two_le_of_le
      · push_cast
        nlinarith [Real.pi_lt_d2]
      · push_cast
        nlinarith [Real.pi_gt_d2]
    rw [hper] at hle
    rw [hspec] at hy
    have hcos : Real.cos 60 = 1 / 2 := hy
    linarith

theorem postLoop_pure (behavior : NotifyBehavior) (event : Event)
    (hb : ∀ l ev st, behavior l ev st = st) (size0 : ℕ) :
    ∀ (remaining pos : ℕ) (st : EMState) (delivered : List Listener),
      st.length = size0 → pos + remaining = size0 →
      postLoop behavior event size0 remaining pos st delivered =
        .ok (delivered.reverse ++ st.drop pos) st := by
  intro remaining
  induction remaining with
  | zero =>
    intro pos st delivered hlen hpos
    simp only [postLoop, hlen, ne_eq, not_true_eq_false, if_false]
    rw [List.drop_eq_nil_of_le (by omega), List.append_nil]
  | succ r ih =>
    intro pos st delivered hlen hpos
    have hpos_lt : pos < st.length := by omega
    simp only [postLoop, hlen, ne_eq, not_true_eq_false, if_false]
    rw [hb]
    rw [ih (pos + 1) st ((st.getD pos 0) :: delivered) hlen (by omega)]
    congr 1
    rw [List.reverse_cons, List.append_assoc]
    congr 1
    rw [List.getD_eq_getElem _ _ hpos_lt]
    exact (List.drop_eq_getElem_cons hpos_lt).symm

theorem post_of_pure (behavior : NotifyBehavior) (event : Event)
    (hb : ∀ l ev st, behavior l ev st = st) (st : EMState) :
    post behavior event st = .ok st st := by
  unfold post
  rw [postLoop_pure behavior event hb st.length st.length 0 st [] rfl (by omega)]
  simp

/-- C6 amended: `post` delivers the event to exactly the listeners
registered at call time, once each and in registration order, provided no
listener's `notify` mutates the registration set during delivery; a
`notify` that changes the set's size mid-iteration makes the `for` loop
raise `RuntimeError` instead (see the counterexample). -/
theorem post_delivers_to_snapshot (behavior : NotifyBehavior) (event : Event)
    (hb : ∀ l ev st, behavior l ev st = st) (st : EMState) :
    post behavior event st = .ok st st :=
  post_of_pure behavior event hb st

/-- Witness for C6 (amended): two listeners with non-mutating notify both
receive the event exactly once. -/
theorem post_delivers_to_snapshot_witness :
    post (fun _ _ s => s) Event.quit [3, 7] = .ok [3, 7] [3, 7] :=
  post_delivers_to_snapshot (fun _ _ s => s) Event.quit (fun _ _ _ => rfl) [3, 7]

/-- A notify reaction: when listener 0 is notified it unregisters
listener 1 (a listener's `notify` may call `unregister_listener` on the
manager); every other listener's notify does nothing. -/
def notifyUnregistersOther : NotifyBehavior :=
  fun l _ st => if l = 0 then unregister_listener 1 st else st

/-- C6 counterexample: with listeners `[0, 1]` registered and listener 0's
`notify` unregistering listener 1, `post` delivers only to listener 0 and
then raises `RuntimeError` (dictionary changed size during iteration) —
so a `post` during which a listener unregisters another does fail, and the
listener registered at call time is not delivered to. -/
theorem post_mutation_cex :
    post notifyUnregistersOther Event.quit [0, 1] = .runtimeError [0] [0] := rfl

/-- C7: `register_listener` is idempotent — registering the same listener
twice equals registering it once — and a subsequent `post` (listeners'
notify not mutating the set) delivers to that listener exactly once.
The hypothesis `st.Nodup` is the representation invariant of the
`WeakKeyDictionary` key list: dict keys are distinct. -/
theorem register_listener_idempotent (st : EMState) (l : Listener)
    (h : st.Nodup) :
    register_listener l (register_listener l st) = register_listener l st ∧
    post (fun _ _ s => s) Event.quit (register_listener l (register_listener l st)) =
      .ok (register_listener l st) (register_listener l st) ∧
    (register_listener l st).count l = 1 := by
  have hidem : register_listener l (register_listener l st) = register_listener l st := by
    by_cases hm : l ∈ st
    · simp [register_listener, hm]
    · simp only [register_listener, hm, if_false]
      rw [if_pos (by simp)]
  refine ⟨hidem, ?_, ?_⟩
  · rw [hidem]
    exact post_of_pure _ Event.quit (fun _ _ _ => rfl) _
  · by_cases hm : l ∈ st
    · rw [register_listener, if_pos hm]
      exact List.count_eq_one_of_mem h hm
    · rw [register_listener, if_neg hm, List.count_append]
      simp [List.count_eq_zero_of_not_mem hm]

/-- Witness for C7 at the concrete bus state `[5]` and listener `3`. -/
theorem register_listener_idempotent_witness :
    register_listener 3 (register_listener 3 [5]) = register_listener 3 [5] ∧
    post (fun _ _ s => s) Event.quit (register_listener 3 (register_listener 3 [5])) =
      .ok (register_listener 3 [5]) (register_listener 3 [5]) ∧
    (register_listener 3 [5]).count 3 = 1 :=
  register_listener_idempotent [5] 3 (by simp)
